import Mathlib

/-!
Verification of the PyEMMA TICA core (`pyemma/coordinates/transform/tica.py`)
and the compressed-NPZ jsonpickle handler
(`pyemma/_base/serialization/jsonpickler_handlers.py`) against their
natural-language specification.

The development is a shallow embedding: the numeric state of the estimator is
modelled over exact arithmetic (stored float values as rationals, results of
transcendental formulas as reals), external collaborators (the covariance
accumulator, the generalized eigensolver `eig_corr`, scipy's `eigh`, numpy's
NPZ codec, jsonpickle's base64 helpers) enter as explicit parameters, and
Python exceptions become `Except` values.
-/

namespace PyEMMA

/-! ## List helpers shared by several embedded methods -/

/-- Embeds `np.cumsum` over a rational list, carrying the running sum `acc`
(`cumsum_from 0 l` is numpy's cumulative sum of `l`). -/
def cumsum_from (acc : ℚ) : List ℚ → List ℚ
  | [] => []
  | x :: xs => (acc + x) :: cumsum_from (acc + x) xs

/-- Embeds the cumulative-variance computation shared by `TICA._diagonalize`
(tica.py lines 309-310) and `EquilibriumCorrectedTICA._estimate` (lines
471-472): `cumvar = np.cumsum(np.abs(eigenvalues) ** 2); cumvar /= cumvar[-1]`.
On the empty list (never produced by the solver) the normalizer defaults
to `0`. -/
def cumvar_of (lam : List ℚ) : List ℚ :=
  let c := cumsum_from 0 (lam.map fun x => |x| ^ 2)
  c.map fun y => y / c.getLastD 0

/-- Embeds `np.searchsorted(a, v)` (default side `left`) for an
ascending-sorted array `a`, the only way `_TICA.dimension` uses it (`cumvar`
is a normalized cumulative sum): the first index whose entry is `≥ v`, which
equals the length of the prefix of entries `< v`. -/
def searchsorted (l : List ℚ) (v : ℚ) : ℕ :=
  (l.takeWhile fun x => decide (x < v)).length

/-! ## The diagonalized TICA estimator state

`d` is the input dimension the eigenvector matrix was computed for and `m`
the number of retained eigenpairs (`len(eigenvalues)`); `eig_corr` returns as
many eigenvector columns as eigenvalues.  Stored float values are embedded as
exact rationals. -/

/-- Observable state of a base `TICA` estimator: the configuration stored by
`_TICA.__init__` together with the `TICAModel` fields written by
`_diagonalize`.  `inputDim` stands for `self.data_producer.dimension()` and
`estimated` for the `_estimated` flag. -/
structure TicaState (d m : ℕ) where
  lag : ℤ
  dim : ℤ
  var_cutoff : ℚ
  kinetic_map : Bool
  commute_map : Bool
  estimated : Bool
  inputDim : ℕ
  mean : Fin d → ℚ
  eigenvalues : Fin m → ℚ
  eigenvectors : Fin d → Fin m → ℚ
  cumvar : List ℚ

/-- Embeds `_TICA.dimension` (tica.py lines 171-188).  `Except.error ()`
stands for the `RuntimeError` raised when the dimension depends on an
estimation that has not happened yet. -/
def dimension {d m : ℕ} (s : TicaState d m) : Except Unit ℤ :=
  if s.dim > -1 then .ok s.dim
  else if s.dim ≠ -1 ∧ s.estimated = false then .ok s.dim
  else if s.estimated = true then
    .ok (if s.var_cutoff < 1 then
          min (m : ℤ) ((searchsorted s.cumvar s.var_cutoff : ℤ) + 1)
        else (m : ℤ))
  else if s.var_cutoff = 1 then .ok (s.inputDim : ℤ)
  else .error ()

/-- The `dimension()` policy in the words of the specification, for
comparison with the code: (1) if `dim` is fixed (`dim > -1`) and the
estimator is not yet diagonalized, return `dim` as declared; (2) if
diagonalized, return `min(len(eigenvalues), searchsorted(cumvar,
var_cutoff)+1)` when `var_cutoff < 1`, else `len(eigenvalues)`; (3) if not
diagonalized and `var_cutoff == 1.0`, return the input dimension; (4)
otherwise fail. -/
def dimension_spec {d m : ℕ} (s : TicaState d m) : Except Unit ℤ :=
  if s.dim > -1 ∧ s.estimated = false then .ok s.dim
  else if s.estimated = true then
    .ok (if s.var_cutoff < 1 then
          min (m : ℤ) ((searchsorted s.cumvar s.var_cutoff : ℤ) + 1)
        else (m : ℤ))
  else if s.var_cutoff = 1 then .ok (s.inputDim : ℤ)
  else .error ()

/-- The amended `dimension()` policy: clause (1) applies whenever
`dim > -1`, whether or not the estimator is diagonalized; the remaining
clauses are unchanged. -/
def dimension_spec_amended {d m : ℕ} (s : TicaState d m) : Except Unit ℤ :=
  if s.dim > -1 then .ok s.dim
  else if s.estimated = true then
    .ok (if s.var_cutoff < 1 then
          min (m : ℤ) ((searchsorted s.cumvar s.var_cutoff : ℤ) + 1)
        else (m : ℤ))
  else if s.var_cutoff = 1 then .ok (s.inputDim : ℤ)
  else .error ()

/-- A reachable diagonalized state with a fixed output dimension: `dim = 1`
was declared (so `__init__` forced `var_cutoff = 1.0`), estimation retained
two eigenpairs (`eig_corr` does not truncate to `dim`). -/
def dimPolicyState : TicaState 2 2 :=
  { lag := 1, dim := 1, var_cutoff := 1, kinetic_map := false,
    commute_map := false, estimated := true, inputDim := 2,
    mean := fun _ => 0, eigenvalues := fun _ => 1 / 2,
    eigenvectors := fun _ _ => 1, cumvar := [1 / 2, 1] }

/-- C2 counterexample: on a diagonalized estimator with a fixed `dim`, the
code returns the declared `dim` (first line of `_TICA.dimension`), while the
claim's priority order reaches its diagonalized clause and demands
`len(eigenvalues)`. -/
theorem tica_dimension_priority_cex :
    dimension dimPolicyState = Except.ok 1 ∧
    dimension_spec dimPolicyState = Except.ok 2 ∧
    dimension dimPolicyState ≠ dimension_spec dimPolicyState := by
  have h1 : dimension dimPolicyState = Except.ok 1 := rfl
  have h2 : dimension_spec dimPolicyState = Except.ok 2 := rfl
  refine ⟨h1, h2, ?_⟩
  rw [h1, h2]
  simp

/-- C2 (amended): for every state with a well-formed `dim` (`dim ≥ -1`,
i.e. `-1` = unset, else a fixed nonnegative dimension), `dimension()`
follows the amended priority order: (1) if `dim > -1` return `dim` as
declared regardless of diagonalization; (2) if diagonalized return
`min(len(eigenvalues), searchsorted(cumvar, var_cutoff)+1)` when
`var_cutoff < 1`, else `len(eigenvalues)`; (3) if not diagonalized and
`var_cutoff = 1.0` return the input dimension; (4) otherwise fail with the
`RuntimeError`. -/
theorem tica_dimension_policy_amended {d m : ℕ} (s : TicaState d m)
    (hdim : -1 ≤ s.dim) : dimension s = dimension_spec_amended s := by
  unfold dimension dimension_spec_amended
  by_cases h1 : s.dim > -1
  · simp [h1]
  · have hd : s.dim = -1 := le_antisymm (by omega) hdim
    simp [h1, hd]

/-- C2 witness: the amended policy evaluated at the concrete diagonalized
state above. -/
theorem tica_dimension_policy_amended_witness :
    -1 ≤ dimPolicyState.dim ∧
    dimension dimPolicyState = dimension_spec_amended dimPolicyState :=
  ⟨by decide, tica_dimension_policy_amended dimPolicyState (by decide)⟩

/-! ## The transform (`TICA._transform_array`, tica.py lines 318-344) -/

/-- Value the slicing code reads from `dimension()` (the Python call would
raise before slicing in the `Except.error` case, which is unreachable on a
diagonalized state). -/
def dimensionD {d m : ℕ} (s : TicaState d m) : ℤ :=
  match dimension s with
  | .ok z => z
  | .error _ => 0

/-- Width of the numpy slice `eigenvectors[:, 0:dimension()]`: a stop past
the last column is clipped to the array's width `m`. -/
def sliceWidth {d m : ℕ} (s : TicaState d m) : ℕ :=
  min (dimensionD s).toNat m

theorem sliceWidth_le {d m : ℕ} (s : TicaState d m) : sliceWidth s ≤ m :=
  min_le_right _ _

/-- Embeds `TICA._transform_array` past its mutually-exclusive-flags check:
mean-free rows are projected onto the first `dimension()` eigenvector
columns, then each projected column is optionally rescaled by its eigenvalue
(`kinetic_map`) or by the square root of half its regularized timescale
(`commute_map`).  Output columns are indexed by `ℕ`, zero at and past the
slice width; the trailing `astype(self.output_type())` is the identity on
this real-valued model. -/
noncomputable def transform_fun {d m n : ℕ} (s : TicaState d m)
    (X : Fin n → Fin d → ℚ) : Fin n → ℕ → ℝ := fun i j =>
  if h : j < sliceWidth s then
    let jm : Fin m := ⟨j, lt_of_lt_of_le h (sliceWidth_le s)⟩
    let y : ℝ := ∑ l : Fin d, ((X i l : ℝ) - (s.mean l : ℝ)) * (s.eigenvectors l jm : ℝ)
    let y := if s.kinetic_map then y * (s.eigenvalues jm : ℝ) else y
    let y := if s.commute_map then
        let ts : ℝ := -(s.lag : ℝ) / Real.log |(s.eigenvalues jm : ℝ)|
        let reg : ℝ := 0.5 * ts * Real.tanh (Real.pi * ((ts - (s.lag : ℝ)) / (s.lag : ℝ)) + 1)
        y * Real.sqrt (reg / 2)
      else y
    y
  else 0

/-- Embeds `TICA._transform_array` with its `ValueError` when both scaling
flags are set (re-validated at call time, line 333-334). -/
noncomputable def transform_array {d m n : ℕ} (s : TicaState d m)
    (X : Fin n → Fin d → ℚ) : Except Unit (Fin n → ℕ → ℝ) :=
  if s.kinetic_map && s.commute_map then .error ()
  else .ok (transform_fun s X)

/-- C1: on a diagonalized estimator, `transform(X)` with both scaling flags
off is the mean-free projection onto the first `dimension()` eigenvector
columns; with `kinetic_map` each projected column is additionally multiplied
by its eigenvalue; with `commute_map` each projected column is multiplied by
`sqrt(regularized_timescale / 2)` with
`regularized_timescale = 0.5 * t * tanh(pi * ((t - lag) / lag) + 1)` and
`t = -lag / ln |lambda|`. -/
theorem tica_transform_array_modes {d m n : ℕ} (s : TicaState d m)
    (X : Fin n → Fin d → ℚ) (_hs : s.estimated = true)
    (i : Fin n) (jm : Fin m) (hj : (jm : ℕ) < sliceWidth s) :
    (¬(s.kinetic_map = true ∧ s.commute_map = true) →
        transform_array s X = Except.ok (transform_fun s X)) ∧
    (s.kinetic_map = false → s.commute_map = false →
        transform_fun s X i jm =
          ∑ l : Fin d, ((X i l : ℝ) - (s.mean l : ℝ)) * (s.eigenvectors l jm : ℝ)) ∧
    (s.kinetic_map = true → s.commute_map = false →
        transform_fun s X i jm =
          (∑ l : Fin d, ((X i l : ℝ) - (s.mean l : ℝ)) * (s.eigenvectors l jm : ℝ))
            * (s.eigenvalues jm : ℝ)) ∧
    (s.kinetic_map = false → s.commute_map = true →
        transform_fun s X i jm =
          (∑ l : Fin d, ((X i l : ℝ) - (s.mean l : ℝ)) * (s.eigenvectors l jm : ℝ))
            * Real.sqrt ((0.5 * (-(s.lag : ℝ) / Real.log |(s.eigenvalues jm : ℝ)|)
                * Real.tanh (Real.pi
                    * (((-(s.lag : ℝ) / Real.log |(s.eigenvalues jm : ℝ)|) - (s.lag : ℝ))
                      / (s.lag : ℝ)) + 1)) / 2)) := by
  refine ⟨fun hkc => ?_, fun hk hc => ?_, fun hk hc => ?_, fun hk hc => ?_⟩
  · have hb : (s.kinetic_map && s.commute_map) = false := by
      cases hK : s.kinetic_map <;> cases hC : s.commute_map <;> simp_all
    unfold transform_array
    simp [hb]
  all_goals
    unfold transform_fun
    rw [dif_pos hj]
    simp only [hk, hc, if_true, if_false, Fin.eta, Bool.false_eq_true]

/-- Concrete diagonalized state and input for the C1 witness. -/
def transformW : TicaState 1 1 :=
  { lag := 1, dim := -1, var_cutoff := 1, kinetic_map := false,
    commute_map := false, estimated := true, inputDim := 1,
    mean := fun _ => 0, eigenvalues := fun _ => 1 / 2,
    eigenvectors := fun _ _ => 1, cumvar := [1] }

/-- Concrete one-row input for the C1 witness. -/
def transformWX : Fin 1 → Fin 1 → ℚ := fun _ _ => 3

/-- C1 witness: the projection-only mode evaluated at a concrete
diagonalized one-dimensional state. -/
theorem tica_transform_array_modes_witness :
    transformW.estimated = true ∧ (0 : ℕ) < sliceWidth transformW ∧
    (transformW.kinetic_map = false → transformW.commute_map = false →
        transform_fun transformW transformWX 0 ((0 : Fin 1) : ℕ) =
          ∑ l : Fin 1, ((transformWX 0 l : ℝ) - (transformW.mean l : ℝ))
            * (transformW.eigenvectors l (0 : Fin 1) : ℝ)) :=
  ⟨rfl, by decide,
    (tica_transform_array_modes transformW transformWX rfl 0 0 (by decide)).2.1⟩

/-! ## Cumulative variance (claim C3) -/

theorem cumsum_from_getLastD (l : List ℚ) : ∀ acc : ℚ,
    (cumsum_from acc l).getLastD acc = acc + l.sum := by
  induction l with
  | nil => intro acc; simp [cumsum_from]
  | cons x xs ih =>
    intro acc
    simp only [cumsum_from, List.getLastD_cons, ih (acc + x), List.sum_cons]
    ring

theorem cumsum_from_ne_nil (acc : ℚ) (l : List ℚ) (hl : l ≠ []) :
    cumsum_from acc l ≠ [] := by
  cases l with
  | nil => exact absurd rfl hl
  | cons x xs => simp [cumsum_from]

theorem cumsum_from_chain (l : List ℚ) (hl : ∀ x ∈ l, 0 ≤ x) : ∀ acc : ℚ,
    List.Chain' (· ≤ ·) (cumsum_from acc l) := by
  induction l with
  | nil => intro acc; simp [cumsum_from]
  | cons x xs ih =>
    intro acc
    rw [cumsum_from]
    refine List.chain'_cons'.mpr ⟨?_, ih (fun y hy => hl y (List.mem_cons_of_mem _ hy)) (acc + x)⟩
    intro b hb
    cases xs with
    | nil => simp [cumsum_from] at hb
    | cons y ys =>
      simp only [cumsum_from, List.head?_cons, Option.mem_def, Option.some.injEq] at hb
      have hy : 0 ≤ y := hl y (by simp)
      rw [← hb]
      linarith

theorem map_getLastD (g : ℚ → ℚ) : ∀ (l : List ℚ), l ≠ [] → ∀ d₁ d₂ : ℚ,
    (l.map g).getLastD d₂ = g (l.getLastD d₁)
  | [], h, _, _ => absurd rfl h
  | [a], _, d₁, d₂ => by simp
  | a :: b :: t, _, d₁, d₂ => by
    rw [List.map_cons, List.getLastD_cons, List.getLastD_cons]
    exact map_getLastD g (b :: t) (List.cons_ne_nil b t) a (g a)

/-- C3: after diagonalization (base and equilibrium-corrected estimator
alike compute it with `cumvar_of`), provided some eigenvalue is nonzero,
`cumvar` is monotonically non-decreasing and its last entry equals `1`
exactly (hence within any floating tolerance). -/
theorem tica_cumvar_monotone_last_one (lam : List ℚ) (h : ∃ x ∈ lam, x ≠ 0) :
    List.Chain' (· ≤ ·) (cumvar_of lam) ∧ (cumvar_of lam).getLastD 0 = 1 := by
  obtain ⟨x, hx, hx0⟩ := h
  have hnonneg : ∀ y ∈ lam.map fun z => |z| ^ 2, 0 ≤ y := by
    intro y hy
    obtain ⟨z, -, rfl⟩ := List.mem_map.mp hy
    positivity
  have hlam_ne : lam ≠ [] := List.ne_nil_of_mem hx
  have hmap_ne : lam.map (fun z => |z| ^ 2) ≠ [] := by
    simpa using hlam_ne
  have hc_ne : cumsum_from 0 (lam.map fun z => |z| ^ 2) ≠ [] :=
    cumsum_from_ne_nil 0 _ hmap_ne
  have htot : (cumsum_from 0 (lam.map fun z => |z| ^ 2)).getLastD 0
      = (lam.map fun z => |z| ^ 2).sum := by
    rw [cumsum_from_getLastD]; ring
  have hsum_pos : 0 < (lam.map fun z => |z| ^ 2).sum := by
    have hmem : |x| ^ 2 ∈ lam.map fun z => |z| ^ 2 := List.mem_map_of_mem _ hx
    have hle : |x| ^ 2 ≤ (lam.map fun z => |z| ^ 2).sum :=
      List.single_le_sum hnonneg _ hmem
    have hxpos : 0 < |x| ^ 2 := by positivity
    linarith
  have htot_pos : 0 < (cumsum_from 0 (lam.map fun z => |z| ^ 2)).getLastD 0 := by
    rw [htot]; exact hsum_pos
  constructor
  · unfold cumvar_of
    rw [List.chain'_map]
    refine (cumsum_from_chain _ hnonneg 0).imp ?_
    intro a b hab
    exact div_le_div_of_nonneg_right hab htot_pos.le
  · unfold cumvar_of
    rw [map_getLastD _ _ hc_ne 0 0]
    exact div_self (ne_of_gt htot_pos)

/-- C3 witness: the cumulative-variance invariants at the eigenvalue list
`[1, 2]` (`cumvar = [1/5, 1]`). -/
theorem tica_cumvar_monotone_last_one_witness :
    (∃ x ∈ ([1, 2] : List ℚ), x ≠ 0) ∧
    (List.Chain' (· ≤ ·) (cumvar_of [1, 2]) ∧ (cumvar_of [1, 2]).getLastD 0 = 1) :=
  ⟨by decide, tica_cumvar_monotone_last_one [1, 2] (by decide)⟩

/-! ## Implied timescales (claim C4)

The source line (`_TICA.timescales`, tica.py line 234) is
`return -self.lag / np.log(np.abs(self.eigenvalues))`, evaluated by numpy
under IEEE-754 semantics.  The embedding makes the IEEE special cases of
that expression explicit over `EReal`. -/

/-- IEEE-754 evaluation of `-lag / log(abs(lam))` at one eigenvalue:
the elementwise body of `_TICA.timescales`.  Under IEEE-754 (numpy floats)
`log 0 = -inf` and a finite nonzero numerator divided by `+0.0` is a signed
infinity, so the expression evaluates to
* `0` for `lam = 0` (`-lag / -inf`);
* a signed infinity for `|lam| = 1` (`log = +0.0`): `-inf` for a positive
  lag, `+inf` for a negative one (the `0.0 / 0.0` NaN case `lag = 0` is
  mapped to `0`; a lag time is positive);
* the exact real quotient otherwise. -/
noncomputable def timescale_float (lag : ℤ) (lam : ℚ) : EReal :=
  if lam = 0 then 0
  else if |lam| = 1 then (if 0 < lag then ⊥ else if lag < 0 then ⊤ else 0)
  else (((-(lag : ℝ)) / Real.log |(lam : ℝ)|) : ℝ)

/-- Embeds `_TICA.timescales` over the cached eigenvalues of a diagonalized
state (the property triggers lazy diagonalization first, see the lazy
contract below). -/
noncomputable def timescales_model {d m : ℕ} (s : TicaState d m) (i : Fin m) : EReal :=
  timescale_float s.lag (s.eigenvalues i)

/-- C4: on a diagonalized estimator every retained timescale equals
`-lag / ln |lambda_i|`, and an eigenvalue of magnitude exactly `1` yields a
representable infinity (numpy produces `-inf` there: `log` returns `+0.0`
and the negative numerator `-lag` divided by it is negative infinity) —
the computation never raises. -/
theorem tica_timescales_formula {d m : ℕ} (s : TicaState d m) (i : Fin m) :
    (s.eigenvalues i ≠ 0 → |s.eigenvalues i| ≠ 1 →
        timescales_model s i =
          (((-(s.lag : ℝ)) / Real.log |((s.eigenvalues i : ℚ) : ℝ)| : ℝ) : EReal)) ∧
    (|s.eigenvalues i| = 1 → 0 < s.lag → timescales_model s i = ⊥) := by
  constructor
  · intro h0 h1
    unfold timescales_model timescale_float
    rw [if_neg h0, if_neg h1]
  · intro h1 hlag
    have h0 : s.eigenvalues i ≠ 0 := by
      intro hz
      rw [hz] at h1
      simp at h1
    unfold timescales_model timescale_float
    rw [if_neg h0, if_pos h1, if_pos hlag]

/-- Concrete diagonalized state for the C4 witness: `lag = 10`, eigenvalues
`1` (unit magnitude) and `1/2`. -/
def timescaleW : TicaState 1 2 :=
  { lag := 10, dim := -1, var_cutoff := 1, kinetic_map := false,
    commute_map := false, estimated := true, inputDim := 1,
    mean := fun _ => 0, eigenvalues := ![1, 1 / 2],
    eigenvectors := fun _ _ => 1, cumvar := [4 / 5, 1] }

/-- C4 witness: both branches of the timescale formula at the concrete
state — the finite quotient at the eigenvalue `1/2` and the infinity at the
unit-magnitude eigenvalue. -/
theorem tica_timescales_formula_witness :
    (timescaleW.eigenvalues 1 ≠ 0 ∧ |timescaleW.eigenvalues 1| ≠ 1 ∧
      timescales_model timescaleW 1 =
        (((-(timescaleW.lag : ℝ)) / Real.log |((timescaleW.eigenvalues 1 : ℚ) : ℝ)| : ℝ) : EReal)) ∧
    (|timescaleW.eigenvalues 0| = 1 ∧ 0 < timescaleW.lag ∧
      timescales_model timescaleW 0 = ⊥) := by
  refine ⟨⟨?_, ?_, (tica_timescales_formula timescaleW 1).1 ?_ ?_⟩,
          ⟨?_, ?_, (tica_timescales_formula timescaleW 0).2 ?_ ?_⟩⟩ <;>
    norm_num [timescaleW, abs_eq]

/-! ## Lazy diagonalization and the incremental-fit state machine
(claims C7 and C9)

The covariance accumulator (`CovarEstimator`) and the generalized
eigensolver (`eig_corr`, from `pyemma._ext`) are external collaborators:
their outputs enter as parameters (`newMean`/`newCov`/`newCovTau`, and a
deterministic solver function `eig` of `(cov, cov_tau, epsilon)`). -/

/-- Runtime state of a base `TICA` estimator as the lazy-estimation
machinery sees it: the `_estimated` flag, the configuration the guards and
the solver read, and the `TICAModel` fields. -/
structure EstimatorState (d : ℕ) where
  estimated : Bool
  dim : ℤ
  epsilon : ℚ
  mean : Fin d → ℚ
  cov : Fin d → Fin d → ℚ
  cov_tau : Fin d → Fin d → ℚ
  model_eigenvalues : List ℚ
  model_eigenvectors : Fin d → List ℚ
  model_cumvar : List ℚ

/-- Embeds `TICA._diagonalize` (tica.py lines 301-316): run
`eig_corr(self._covar.cov, self.cov_tau, self.epsilon)` (the external
solver `eig`), compute `cumvar`, store eigenvalues, eigenvectors and
`cumvar` in the model, and raise the `_estimated` flag. -/
def diagonalize {d : ℕ}
    (eig : (Fin d → Fin d → ℚ) → (Fin d → Fin d → ℚ) → ℚ → List ℚ × (Fin d → List ℚ))
    (s : EstimatorState d) : EstimatorState d :=
  let r := eig s.cov s.cov_tau s.epsilon
  { s with model_eigenvalues := r.1, model_eigenvectors := r.2,
           model_cumvar := cumvar_of r.1, estimated := true }

/-- Embeds the `_lazy_estimation` decorator (tica.py lines 50-56) guarding
every eigenpair-derived property access: diagonalize first when the
`_estimated` flag is down, otherwise serve the cached model unchanged. -/
def lazy_estimation {d : ℕ}
    (eig : (Fin d → Fin d → ℚ) → (Fin d → Fin d → ℚ) → ℚ → List ℚ × (Fin d → List ℚ))
    (s : EstimatorState d) : EstimatorState d :=
  if s.estimated then s else diagonalize eig s

/-- Embeds the state update of `TICA.partial_fit` (tica.py lines 272-278)
past its dimension guard: copy the accumulator's refreshed mean, covariance
and time-lagged covariance into the model and reset `_estimated`. -/
def partial_fit_update {d : ℕ} (newMean : Fin d → ℚ)
    (newCov newCovTau : Fin d → Fin d → ℚ) (s : EstimatorState d) :
    EstimatorState d :=
  { s with mean := newMean, cov := newCov, cov_tau := newCovTau,
           estimated := false }

/-- Embeds `TICA.partial_fit` (tica.py lines 252-280): the eager dimension
guard (`Except.error ()` stands for the `RuntimeError` on requesting more
output dimensions than the input has), then the model update. -/
def partial_fit {d : ℕ} (indim : ℕ) (newMean : Fin d → ℚ)
    (newCov newCovTau : Fin d → Fin d → ℚ) (s : EstimatorState d) :
    Except Unit (EstimatorState d) :=
  if ¬ (s.dim ≤ (indim : ℤ)) then .error ()
  else .ok (partial_fit_update newMean newCov newCovTau s)

/-- Embeds `TICA._estimate` (tica.py lines 282-299): the same eager
dimension guard, the bulk covariance estimation (outputs passed in), then an
immediate `_diagonalize`. -/
def tica_estimate {d : ℕ} (indim : ℕ) (newMean : Fin d → ℚ)
    (newCov newCovTau : Fin d → Fin d → ℚ)
    (eig : (Fin d → Fin d → ℚ) → (Fin d → Fin d → ℚ) → ℚ → List ℚ × (Fin d → List ℚ))
    (s : EstimatorState d) : Except Unit (EstimatorState d) :=
  if ¬ (s.dim ≤ (indim : ℤ)) then .error ()
  else .ok (diagonalize eig
    { s with mean := newMean, cov := newCov, cov_tau := newCovTau })

/-- C7: the lazy-diagonalization contract.  `_diagonalize` invokes the
generalized eigensolver on the accumulated `(cov, cov_tau)` pair with
`epsilon`, stores eigenvalues, eigenvectors and the computed `cumvar` in the
model and raises the `_estimated` flag; an access through the lazy guard on
an un-estimated state runs exactly `_diagonalize`; a second guarded access
is a no-op (so eigenvalues and eigenvectors are bit-for-bit identical and
nothing is recomputed); `partial_fit` resets the flag, so the next guarded
access recomputes. -/
theorem tica_lazy_diagonalization_contract {d : ℕ}
    (eig : (Fin d → Fin d → ℚ) → (Fin d → Fin d → ℚ) → ℚ → List ℚ × (Fin d → List ℚ))
    (s : EstimatorState d) (newMean : Fin d → ℚ)
    (newCov newCovTau : Fin d → Fin d → ℚ) :
    (diagonalize eig s).model_eigenvalues = (eig s.cov s.cov_tau s.epsilon).1 ∧
    (diagonalize eig s).model_eigenvectors = (eig s.cov s.cov_tau s.epsilon).2 ∧
    (diagonalize eig s).model_cumvar = cumvar_of (eig s.cov s.cov_tau s.epsilon).1 ∧
    (diagonalize eig s).estimated = true ∧
    lazy_estimation eig { s with estimated := false }
      = diagonalize eig { s with estimated := false } ∧
    lazy_estimation eig (lazy_estimation eig s) = lazy_estimation eig s ∧
    (partial_fit_update newMean newCov newCovTau s).estimated = false ∧
    lazy_estimation eig (partial_fit_update newMean newCov newCovTau s)
      = diagonalize eig (partial_fit_update newMean newCov newCovTau s) := by
  refine ⟨rfl, rfl, rfl, rfl, ?_, ?_, rfl, ?_⟩
  · simp [lazy_estimation]
  · unfold lazy_estimation
    cases h : s.estimated with
    | true => simp [h]
    | false => simp [h, diagonalize]
  · simp [lazy_estimation, partial_fit_update]

/-- C9: `partial_fit` and `estimate` fail (with the dimension-mismatch
error, raised eagerly before any transform) exactly when the requested
output dimension `dim` exceeds the input data's dimension. -/
theorem tica_fit_dimension_guard {d : ℕ} (s : EstimatorState d) (indim : ℕ)
    (newMean : Fin d → ℚ) (newCov newCovTau : Fin d → Fin d → ℚ)
    (eig : (Fin d → Fin d → ℚ) → (Fin d → Fin d → ℚ) → ℚ → List ℚ × (Fin d → List ℚ)) :
    ((partial_fit indim newMean newCov newCovTau s).isOk = false
        ↔ (indim : ℤ) < s.dim) ∧
    ((tica_estimate indim newMean newCov newCovTau eig s).isOk = false
        ↔ (indim : ℤ) < s.dim) := by
  constructor
  · unfold partial_fit
    split_ifs with h <;> simp [Except.isOk, Except.toBool] <;> omega
  · unfold tica_estimate
    split_ifs with h <;> simp [Except.isOk, Except.toBool] <;> omega

/-! ## Constructor option validation (claim C8)

`_TICA.__init__` (tica.py lines 135-153).  The specification's
`ConfigurationError` covers both Python error classes raised there
(`ValueError` for the two both-set conflicts, `NotImplementedError` for a
scaling mode without reversibility).  Whether `var_cutoff` was "explicitly
set" is observable only as a value different from its default `0.95`
(`get_default_args`), exactly the comparison the source makes. -/

inductive InitError where
  | valueError
  | notImplementedError
deriving DecidableEq

/-- Configuration a successful `_TICA.__init__` stores via `set_params`
(the fields the claims read). -/
structure TicaConfig where
  lag : ℤ
  dim : ℤ
  var_cutoff : ℚ
  kinetic_map : Bool
  commute_map : Bool
  epsilon : ℚ
  reversible : Bool

/-- Embeds `_TICA.__init__`: the three conflicting-option checks in source
order, then the stored configuration (with `var_cutoff` forced to `1.0`
when a fixed `dim > -1` is given, line 144-145). -/
def tica_init (lag dim : ℤ) (var_cutoff : ℚ) (kinetic_map commute_map : Bool)
    (epsilon : ℚ) (reversible : Bool) : Except InitError TicaConfig :=
  if dim ≠ -1 ∧ var_cutoff ≠ 19 / 20 then .error .valueError
  else if kinetic_map = true ∧ commute_map = true then .error .valueError
  else if (kinetic_map = true ∨ commute_map = true) ∧ reversible = false then
    .error .notImplementedError
  else .ok { lag := lag, dim := dim,
             var_cutoff := if dim > -1 then 1 else var_cutoff,
             kinetic_map := kinetic_map, commute_map := commute_map,
             epsilon := epsilon, reversible := reversible }

/-- C8: construction fails exactly when conflicting options are given — a
non-default `dim` together with a non-default `var_cutoff`, both scaling
modes set, or a scaling mode with `reversible = false` — and succeeds
otherwise. -/
theorem tica_init_conflict_iff (lag dim : ℤ) (var_cutoff : ℚ)
    (kinetic_map commute_map : Bool) (epsilon : ℚ) (reversible : Bool) :
    (tica_init lag dim var_cutoff kinetic_map commute_map epsilon reversible).isOk = false
      ↔ ((dim ≠ -1 ∧ var_cutoff ≠ 19 / 20)
          ∨ (kinetic_map = true ∧ commute_map = true)
          ∨ ((kinetic_map = true ∨ commute_map = true) ∧ reversible = false)) := by
  unfold tica_init
  split_ifs with h1 h2 h3 <;> simp [Except.isOk, Except.toBool] <;> simp_all

/-! ## Equilibrium-corrected estimation (claims C5 and C6)

`EquilibriumCorrectedTICA._estimate` (tica.py lines 423-478).  The Koopman
sub-estimation (`_KoopmanEstimator`), the re-estimated covariance and the
two scipy `eigh` calls are external inputs; the lines the claims are about —
the epsilon adjustment and eigenpair filtering of `C0_eq` (447-458) and the
composition of the final transform (458-467, 480-481) — are embedded
below. -/

/-- Embeds `np.min(s)` for the eigenvalue array of `scl.eigh(C_0_eq)`
(line 449); the array of a symmetric `(r+1) x (r+1)` eigenproblem is never
empty, the default `0` covers the nil case of the model only. -/
def evmin_of : List ℚ → ℚ
  | [] => 0
  | a :: t => t.foldl min a

/-- Embeds the local epsilon adjustment (tica.py lines 450-453): raise the
configured `epsilon` to `-evmin` whenever `C0_eq` has a negative
eigenvalue. -/
def ep0_of (epsilon : ℚ) (sEv : List ℚ) : ℚ :=
  if evmin_of sEv < 0 then max epsilon (-(evmin_of sEv)) else epsilon

/-- Modelled from the spec: `sort_by_norm`
(`pyemma._ext.variational.solvers.direct`, not under `src/`) reorders
eigenvalues by descending norm — the generalized eigensolver "produces
eigenpairs sorted by descending eigenvalue norm".  Only the value list
matters to the claims; the paired eigenvector columns undergo the same
permutation. -/
def sort_by_norm_vals (l : List ℚ) : List ℚ :=
  l.insertionSort fun a b => |b| ≤ |a|

/-- Embeds the eigenpair filtering of `C0_eq` (tica.py lines 454-457):
after `sort_by_norm`, keep the indices with `np.abs(s) > ep0` (the adjusted
epsilon computed from the unsorted eigenvalue array). -/
def eq_retained (epsilon : ℚ) (sEv : List ℚ) : List ℚ :=
  (sort_by_norm_vals sEv).filter fun x => decide (ep0_of epsilon sEv < |x|)

theorem foldl_min_le (t : List ℚ) : ∀ a : ℚ,
    t.foldl min a ≤ a ∧ ∀ x ∈ t, t.foldl min a ≤ x := by
  induction t with
  | nil => intro a; simp
  | cons b u ih =>
    intro a
    rw [List.foldl_cons]
    obtain ⟨h1, h2⟩ := ih (min a b)
    refine ⟨le_trans h1 (min_le_left a b), ?_⟩
    intro x hx
    rcases List.mem_cons.mp hx with hxb | hxu
    · rw [hxb]; exact le_trans h1 (min_le_right a b)
    · exact h2 x hxu

theorem evmin_of_le {l : List ℚ} {x : ℚ} (hx : x ∈ l) : evmin_of l ≤ x := by
  cases l with
  | nil => cases hx
  | cons a t =>
    rcases List.mem_cons.mp hx with hxa | hxt
    · rw [hxa]; exact (foldl_min_le t a).1
    · exact (foldl_min_le t a).2 x hxt

/-- C6: with a nonnegative configured `epsilon` (the default is `1e-6`),
every eigenvalue of `C0_eq` retained by the adjusted-epsilon filter is
strictly positive, so the whitening transform `R_eq = Q.dot(diag(s ** -0.5))`
is well-defined: no negative or zero value is raised to the power `-1/2`,
and each scaling factor `s ** -0.5` is a positive real. -/
theorem eqtica_retained_eigenvalues_pos (epsilon : ℚ) (sEv : List ℚ)
    (heps : 0 ≤ epsilon) :
    ∀ x ∈ eq_retained epsilon sEv, 0 < x ∧ (0 : ℝ) < (x : ℝ) ^ (-(0.5 : ℝ)) := by
  intro x hx
  rw [eq_retained, List.mem_filter] at hx
  obtain ⟨hmem, hfilt⟩ := hx
  have habs : ep0_of epsilon sEv < |x| := of_decide_eq_true hfilt
  have hmem' : x ∈ sEv := by
    rw [sort_by_norm_vals] at hmem
    exact (List.perm_insertionSort _ sEv).mem_iff.mp hmem
  have hep0_nonneg : 0 ≤ ep0_of epsilon sEv := by
    rw [ep0_of]
    split_ifs with hneg
    · exact le_trans heps (le_max_left _ _)
    · exact heps
  have hpos : 0 < x := by
    rcases lt_trichotomy x 0 with hlt | heq | hgt
    · exfalso
      have hmin : evmin_of sEv ≤ x := evmin_of_le hmem'
      have hminneg : evmin_of sEv < 0 := lt_of_le_of_lt hmin hlt
      have hep0 : ep0_of epsilon sEv = max epsilon (-(evmin_of sEv)) := by
        rw [ep0_of, if_pos hminneg]
      have : |x| ≤ ep0_of epsilon sEv := by
        rw [hep0, abs_of_neg hlt]
        exact le_trans (by linarith) (le_max_right _ _)
      linarith
    · exfalso
      rw [heq, abs_zero] at habs
      linarith
    · exact hgt
  refine ⟨hpos, Real.rpow_pos_of_pos ?_ _⟩
  exact_mod_cast hpos

/-- C6 witness: `epsilon = 1e-6` and the eigenvalue array `[2, -1]` of a
`C0_eq` with a negative eigenvalue — the adjusted epsilon is `1`, the
retained list is `[2]`, and the retained value is strictly positive. -/
theorem eqtica_retained_eigenvalues_pos_witness :
    (0 : ℚ) ≤ 1 / 1000000 ∧ (2 : ℚ) ∈ eq_retained (1 / 1000000) [2, -1] ∧
    (0 < (2 : ℚ) ∧ (0 : ℝ) < ((2 : ℚ) : ℝ) ^ (-(0.5 : ℝ))) := by
  refine ⟨by norm_num, ?_, ?_⟩
  · norm_num [eq_retained, sort_by_norm_vals, List.insertionSort,
      List.orderedInsert, ep0_of, evmin_of, List.filter]
  · refine eqtica_retained_eigenvalues_pos (1 / 1000000) [2, -1] (by norm_num) 2 ?_
    norm_num [eq_retained, sort_by_norm_vals, List.insertionSort,
      List.orderedInsert, ep0_of, evmin_of, List.filter]

/-! ## Composition of the equilibrium-corrected transform (claim C5)

Lines 458-467 compose the transform from the whitening transform `R_eq`
(`(r+1) x k`), the eigenvector matrix `V` of `K_eq` (`k x mK`), the Koopman
basis matrix `R` (`d x r`) and the Koopman reference mean `x_mean_0`; lines
480-481 apply it to new data.  All entries are reals (they come out of
`eigh` and `** -0.5`). -/

/-- Embeds `W = R_eq.dot(V)` (tica.py line 465). -/
def eqW {r k mK : ℕ} (R_eq : Matrix (Fin (r + 1)) (Fin k) ℝ)
    (V : Matrix (Fin k) (Fin mK) ℝ) : Matrix (Fin (r + 1)) (Fin mK) ℝ :=
  R_eq * V

/-- The numpy slice `W[0:r, :]`: the first `r` rows of `W`. -/
def eqWtop {r k mK : ℕ} (R_eq : Matrix (Fin (r + 1)) (Fin k) ℝ)
    (V : Matrix (Fin k) (Fin mK) ℝ) : Matrix (Fin r) (Fin mK) ℝ :=
  (eqW R_eq V).submatrix Fin.castSucc id

/-- Embeds `self._tr = R.dot(W[0:r, :])` (tica.py line 466). -/
def eq_tr {d r k mK : ℕ} (R : Matrix (Fin d) (Fin r) ℝ)
    (R_eq : Matrix (Fin (r + 1)) (Fin k) ℝ) (V : Matrix (Fin k) (Fin mK) ℝ) :
    Matrix (Fin d) (Fin mK) ℝ :=
  R * eqWtop R_eq V

/-- Embeds `self._tr_c = W[r, :] - x_mean_0.T.dot(R).dot(W[0:r, :])`
(tica.py line 467). -/
def eq_tr_c {d r k mK : ℕ} (x_mean_0 : Fin d → ℝ) (R : Matrix (Fin d) (Fin r) ℝ)
    (R_eq : Matrix (Fin (r + 1)) (Fin k) ℝ) (V : Matrix (Fin k) (Fin mK) ℝ) :
    Fin mK → ℝ :=
  (fun j => eqW R_eq V (Fin.last r) j)
    - Matrix.vecMul (Matrix.vecMul x_mean_0 R) (eqWtop R_eq V)

/-- Embeds `EquilibriumCorrectedTICA._transform_array` (tica.py lines
480-481): `X.dot(self._tr) + self._tr_c`, the offset row broadcast over the
rows of `X`. -/
def eq_transform_array {d mK n : ℕ} (tr : Matrix (Fin d) (Fin mK) ℝ)
    (tr_c : Fin mK → ℝ) (X : Matrix (Fin n) (Fin d) ℝ) :
    Matrix (Fin n) (Fin mK) ℝ :=
  X * tr + Matrix.of fun _ j => tr_c j

/-- C5: with `W = R_eq · V`, the equilibrium-corrected transform of any new
input `X` equals `X` times the projection matrix `R · W[0:r, :]` plus the
additive offset `W[r, :] - x_mean_0ᵀ · R · W[0:r, :]`, entrywise — no
separate mean subtraction occurs, the offset absorbs it. -/
theorem eqtica_transform_composition {d r k mK n : ℕ}
    (R : Matrix (Fin d) (Fin r) ℝ) (R_eq : Matrix (Fin (r + 1)) (Fin k) ℝ)
    (V : Matrix (Fin k) (Fin mK) ℝ) (x_mean_0 : Fin d → ℝ)
    (X : Matrix (Fin n) (Fin d) ℝ) (i : Fin n) (j : Fin mK) :
    eq_transform_array (eq_tr R R_eq V) (eq_tr_c x_mean_0 R R_eq V) X i j =
      (X * (R * ((R_eq * V).submatrix Fin.castSucc id))) i j
        + ((R_eq * V) (Fin.last r) j
            - Matrix.vecMul (Matrix.vecMul x_mean_0 R)
                ((R_eq * V).submatrix Fin.castSucc id) j) := by
  simp [eq_transform_array, eq_tr, eq_tr_c, eqWtop, eqW, Matrix.add_apply,
    Pi.sub_apply]

/-! ## The compressed-NPZ jsonpickle handler (claim C10)

`NumpyNPZHandler` (jsonpickler_handlers.py lines 32-52).  The external
codecs — numpy's `savez_compressed`/`load` NPZ archive writer and reader,
and jsonpickle's `util.b64encode`/`util.b64decode` — are third-party
collaborators passed in as parameters together with their round-trip
contracts.  An NPZ archive maps string keys to arrays; the buffer plumbing
(`BytesIO`, `seek(0)`, `read`) is the identity on the written bytes. -/

/-- The jsonpickle `data` dictionary as `flatten` returns it: the entry
under the key `npz_file_bytes` (`S` is the type of base64 text). -/
structure NpzFlattened (S : Type) where
  npz_file_bytes : S

/-- Embeds `NumpyNPZHandler.flatten` (lines 37-44):
`np.savez_compressed(buff, x=obj)` writes a one-entry archive under the key
`"x"`, and the buffer's bytes are base64-encoded into
`data['npz_file_bytes']`. -/
def npz_flatten {A B S : Type} (savez : List (String × A) → B)
    (b64encode : B → S) (x : A) : NpzFlattened S :=
  { npz_file_bytes := b64encode (savez [("x", x)]) }

/-- Embeds `NumpyNPZHandler.restore` (lines 46-52): base64-decode
`obj['npz_file_bytes']`, read the NPZ archive back and return its entry
under the key `"x"` (`none` models the `KeyError` on a missing entry). -/
def npz_restore {A B S : Type} (loadz : B → List (String × A))
    (b64decode : S → B) (obj : NpzFlattened S) : Option A :=
  (loadz (b64decode obj.npz_file_bytes)).lookup "x"

/-- C10: for every array `x`, restoring the flattened dictionary returns
exactly `x`, given the round-trip contracts of the external NPZ and base64
codecs. -/
theorem npz_flatten_restore_roundtrip {A B S : Type}
    (savez : List (String × A) → B) (loadz : B → List (String × A))
    (b64encode : B → S) (b64decode : S → B)
    (hnpz : ∀ l, loadz (savez l) = l)
    (hb64 : ∀ b, b64decode (b64encode b) = b) (x : A) :
    npz_restore loadz b64decode (npz_flatten savez b64encode x) = some x := by
  unfold npz_restore npz_flatten
  rw [hb64, hnpz]
  simp [List.lookup]

/-- C10 witness: the round-trip applied with identity codecs to the array
stand-in `7`. -/
theorem npz_flatten_restore_roundtrip_witness :
    (∀ l : List (String × ℕ), id (id l) = l) ∧
    npz_restore (id : List (String × ℕ) → List (String × ℕ)) id
      (npz_flatten id id 7) = some 7 :=
  ⟨fun _ => rfl,
    npz_flatten_restore_roundtrip id id id id (fun _ => rfl) (fun _ => rfl) 7⟩

end PyEMMA
